import Mathlib

/-!
Verification of the rendering & link-resolution pipeline of the `tatum`
document previewer (file `src/render.rs`).

The embedding models Unix paths explicitly: a path is an `absolute` flag
plus a list of raw components (as produced by splitting the path string
on slashes).  The functions `rustComponents`, `parentPath`, `popPath`,
`joinPath`, `truncate_cwd` mirror the semantics of the Rust standard
library operations (`Path::components`, `Path::parent`, `PathBuf::pop`,
`Path::join`, `Path::strip_prefix` followed by collecting components)
used by the source.  External collaborators (the URL parser, the
filesystem, the MIME database, the askama templates, the markdown parser
and serializer, the process working directory and home directory) are
passed in as explicit parameters, following the spec's own design note
that ambient process state should be threaded as explicit parameters.
-/

namespace Tatum

/-- A non-root component of a Unix path, as produced by splitting the raw
path string on slashes: the current-directory token, the parent-directory
token, or a normal name. -/
inductive PComp where
  | curDir
  | parentDir
  | normal (s : String)
deriving DecidableEq, Repr

/-- A Unix path: whether it is absolute (starts with a slash) plus its raw
components in order. -/
structure RPath where
  absolute : Bool
  comps : List PComp
deriving DecidableEq, Repr

/-- A component in the sense of Rust's `Path::components` iterator: the
root directory, or one of the non-root components. -/
inductive RComp where
  | rootDir
  | curDir
  | parentDir
  | normal (s : String)
deriving DecidableEq, Repr

/-- Embeds a raw component into the `Path::components` component type. -/
def toRComp : PComp → RComp
  | .curDir => .curDir
  | .parentDir => .parentDir
  | .normal s => .normal s

/-- Partial inverse of `toRComp`; the root directory has no raw-component
counterpart. -/
def pcompOfRComp : RComp → Option PComp
  | .rootDir => none
  | .curDir => some .curDir
  | .parentDir => some .parentDir
  | .normal s => some (.normal s)

/-- The component list of a path exactly as Rust's `Path::components`
yields it: a root-directory component first when the path is absolute, and
current-directory tokens normalized away except when one is the leading
component of a relative path. -/
def rustComponents (p : RPath) : List RComp :=
  if p.absolute then
    RComp.rootDir :: (p.comps.filter (· != PComp.curDir)).map toRComp
  else
    match p.comps with
    | PComp.curDir :: rest => RComp.curDir :: (rest.filter (· != PComp.curDir)).map toRComp
    | cs => (cs.filter (· != PComp.curDir)).map toRComp

/-- Rebuilds a path from a `Path::components`-style list, as Rust's
`collect::<PathBuf>()` over components does: a leading root-directory
component makes the path absolute. -/
def ofRComps : List RComp → RPath
  | RComp.rootDir :: rest => ⟨true, rest.filterMap pcompOfRComp⟩
  | rest => ⟨false, rest.filterMap pcompOfRComp⟩

/-- Rust's `Path::parent`: the path without its final component, or `none`
for the root path and the empty path. -/
def parentPath (p : RPath) : Option RPath :=
  if rustComponents p = [] ∨ rustComponents p = [RComp.rootDir] then none
  else some (ofRComps (rustComponents p).dropLast)

/-- Rust's `PathBuf::pop`: removes the final component when there is a
parent, and leaves the path unchanged otherwise. -/
def popPath (p : RPath) : RPath :=
  match parentPath p with
  | some q => q
  | none => p

/-- Rust's `Path::join`: joining an absolute path replaces the receiver,
joining a relative path appends its components. -/
def joinPath (p q : RPath) : RPath :=
  if q.absolute then q else ⟨p.absolute, p.comps ++ q.comps⟩

/-- Splits a character list on slashes, accumulating the current segment
in reverse. -/
def splitSlashAux : List Char → List Char → List String
  | [], acc => [String.mk acc.reverse]
  | c :: rest, acc =>
      if c = '/' then String.mk acc.reverse :: splitSlashAux rest []
      else splitSlashAux rest (c :: acc)

/-- Parses a path string into the explicit path representation, splitting
on slashes; empty segments are ignored, matching how `Path` treats
repeated and trailing slashes. -/
def parsePath (s : String) : RPath :=
  ⟨(match s.data with | '/' :: _ => true | _ => false),
   ((splitSlashAux s.data []).filter (· != "")).map fun c =>
     if c = "." then PComp.curDir
     else if c = ".." then PComp.parentDir
     else PComp.normal c⟩

/-- Renders a raw component back to its string form. -/
def compString : PComp → String
  | .curDir => "."
  | .parentDir => ".."
  | .normal s => s

/-- The display form of a path, as `Path::to_str` yields for a path built
from UTF-8 components. -/
def pathToString (p : RPath) : String :=
  (if p.absolute then "/" else "") ++ String.intercalate "/" (p.comps.map compString)

/-- One step of the cleanup loop of `join_and_canonicalize`
(src/render.rs lines 184-193): a parent-directory component pops the
accumulator, a current-directory component is skipped, anything else is
pushed (pushing the root-directory component makes the accumulator
absolute, as `PathBuf::push("/")` does). -/
def cleanStep (acc : RPath) : RComp → RPath
  | .rootDir => ⟨true, []⟩
  | .parentDir => popPath acc
  | .curDir => acc
  | .normal s => ⟨acc.absolute, acc.comps ++ [PComp.normal s]⟩

/-- The cleanup loop of `join_and_canonicalize` (src/render.rs lines
183-195): folds `cleanStep` over the components of the input path,
starting from an empty accumulator. -/
def cleanPath (p : RPath) : RPath :=
  (rustComponents p).foldl cleanStep ⟨false, []⟩

/-- Models `join_and_canonicalize` (src/render.rs lines 176-196): joins a
reference string to the parent directory of the current file (or to the
current file itself when it has no parent) and runs the lexical cleanup
loop.  It never touches the filesystem and never fails. -/
def join_and_canonicalize (path : String) (current_file : RPath) : RPath :=
  cleanPath (joinPath ((parentPath current_file).getD current_file) (parsePath path))

/-- Models `is_child_path` (src/render.rs lines 246-270): a relative
candidate is never a child; otherwise the candidate must have strictly
more components than the parent and agree with it on the shared prefix. -/
def is_child_path (parent_dir child : RPath) : Bool :=
  if child.absolute = false then false
  else if (rustComponents child).length ≤ (rustComponents parent_dir).length then false
  else decide ((rustComponents child).take (rustComponents parent_dir).length
                 = rustComponents parent_dir)

/-- Models `truncate_cwd` (src/render.rs lines 217-228): strips the
working-directory prefix from the path, component-wise, collecting the
remaining components into a new path; `none` when the prefix does not
match.  The working directory is an explicit parameter. -/
def truncate_cwd (cwd file_path : RPath) : Option RPath :=
  if (rustComponents file_path).take (rustComponents cwd).length = rustComponents cwd
  then some (ofRComps ((rustComponents file_path).drop (rustComponents cwd).length))
  else none

/-- Models `get_relative_path_under_cwd` (src/render.rs lines 141-151)
with the working directory passed explicitly: when the path is a child of
the working directory it is truncated, otherwise it is returned
unchanged. -/
def get_relative_path_under_cwd (cwd file_path : RPath) : Option RPath :=
  if is_child_path cwd file_path then truncate_cwd cwd file_path else some file_path

/-- Tests whether a path's first component is the tilde token, as
`Path::starts_with("~")` does. -/
def tildeFirst (p : RPath) : Bool :=
  match p.comps with
  | PComp.normal "~" :: _ => true
  | _ => false

/-- Models the `resolve_path` crate's `resolve_in` used at
src/render.rs line 71: an absolute path is returned as-is, a path whose
first component is a tilde is resolved against the home directory, and
any other relative path is joined directly onto the base (which here is
the base document file itself, not its parent directory). -/
def resolve_in (home p base : RPath) : RPath :=
  if p.absolute then p
  else if tildeFirst p then joinPath home ⟨false, p.comps.tail⟩
  else joinPath base p

/-- The UTF-8 encoding of a single character as byte values. -/
def utf8Bytes (c : Char) : List Nat :=
  let n := c.toNat
  if n < 0x80 then [n]
  else if n < 0x800 then [0xC0 + n / 64, 0x80 + n % 64]
  else if n < 0x10000 then [0xE0 + n / 4096, 0x80 + n / 64 % 64, 0x80 + n % 64]
  else [0xF0 + n / 262144, 0x80 + n / 4096 % 64, 0x80 + n / 64 % 64, 0x80 + n % 64]

/-- The UTF-8 bytes of a string, as Rust's `str::as_bytes` yields. -/
def strBytes (s : String) : List Nat :=
  (s.data.map utf8Bytes).flatten

/-- The standard base64 alphabet. -/
def b64Alphabet : List Char :=
  "ABCDEFGHIJKLMNOPQRSTUVWXYZabcdefghijklmnopqrstuvwxyz0123456789+/".data

/-- The base64 digit for a 6-bit value. -/
def b64Char (n : Nat) : Char :=
  b64Alphabet.getD n 'A'

/-- Standard base64 encoding with padding, as the `base64` crate's
`general_purpose::STANDARD` engine produces. -/
def base64Encode : List Nat → String
  | [] => ""
  | [a] => String.mk [b64Char (a / 4), b64Char (a % 4 * 16)] ++ "=="
  | [a, b] =>
      String.mk [b64Char (a / 4), b64Char (a % 4 * 16 + b / 16), b64Char (b % 16 * 4)] ++ "="
  | a :: b :: c :: rest =>
      String.mk [b64Char (a / 4), b64Char (a % 4 * 16 + b / 16),
                 b64Char (b % 16 * 4 + c / 64), b64Char (c % 64)] ++ base64Encode rest

/-- Models `data_url` (src/render.rs lines 13-17): base64-encodes the
bytes and wraps them in the data-URL shape. -/
def data_url (data : List Nat) (mime_type : String) : String :=
  "data:" ++ mime_type ++ ";base64," ++ base64Encode data

/-- The external collaborators of the pipeline, passed explicitly: the
URL-parse oracle (whether `Url::parse` succeeds on a string), the
filesystem as a partial map from paths to byte contents, the
`mime_guess::from_path(..).first_raw()` oracle, the askama SVG template
(fill color and message to rendered SVG source), and the process home
and current working directories. -/
structure Ctx where
  urlOk : String → Bool
  fs : RPath → Option (List Nat)
  mimeFirstRaw : RPath → Option String
  svgRender : String → String → String
  home : RPath
  cwd : RPath

/-- Models `path_to_data_url` (src/render.rs lines 20-29): reads the file
at the path and produces a data URL with the guessed MIME type, defaulting
to text/plain; a failed read propagates as `none` (the `?` on `read`). -/
def path_to_data_url (c : Ctx) (p : RPath) : Option String :=
  (c.fs p).map fun file => data_url file ((c.mimeFirstRaw p).getD "text/plain")

/-- Models `generate_message_data_url` (src/render.rs lines 32-42):
renders the SVG template with the given message and color and wraps its
bytes in a data URL with MIME type image/svg+xml. -/
def generate_message_data_url (c : Ctx) (message color : String) : String :=
  data_url (strBytes (c.svgRender color message)) "image/svg+xml"

/-- The link kinds of pulldown-cmark's `LinkType`. -/
inductive LinkType where
  | inline
  | reference
  | referenceUnknown
  | collapsed
  | collapsedUnknown
  | shortcut
  | shortcutUnknown
  | autolink
  | email
deriving DecidableEq, Repr

/-- The tags of pulldown-cmark's `Tag` that carry structure relevant to
the transform, with the rest collapsed into carriers that the transform
never inspects. -/
inductive Tag where
  | paragraph
  | heading (level : Nat)
  | image (link_type : LinkType) (dest_url title id' : String)
  | link (link_type : LinkType) (dest_url title id' : String)
  | codeBlock (info : String)
  | list (ordered : Bool)
  | item
  | emphasis
  | strong
  | blockQuote
  | otherTag (name : String)
deriving DecidableEq, Repr

/-- The events of pulldown-cmark's `Event` stream. -/
inductive Event where
  | start (t : Tag)
  | end' (t : Tag)
  | text (s : String)
  | code (s : String)
  | html (s : String)
  | footnoteReference (s : String)
  | softBreak
  | hardBreak
  | rule
  | taskListMarker (checked : Bool)
deriving DecidableEq, Repr

/-- Models `dest_url.parse::<PathBuf>()`: the `FromStr` instance for
`PathBuf` has error type `Infallible` (here `Empty`), and a `PathBuf`
stores the parsed string verbatim. -/
def parsePathBuf (s : String) : Except Empty String :=
  Except.ok s

/-- Models `PathBuf::to_str` on a buffer built from a string, which is
always valid UTF-8 and is returned verbatim. -/
def pathBufToStr (s : String) : Option String :=
  some s

/-- The path used to read an inline image (src/render.rs line 71): the
destination parsed as a path and resolved in the base document path
itself via the resolve-path crate. -/
def image_resolved_path (c : Ctx) (base : RPath) (dest : String) : RPath :=
  resolve_in c.home (parsePath dest) base

/-- The local path produced for an inline link (src/render.rs lines
94-100): a relative destination is joined to the base document and
lexically cleaned, an absolute destination is used as-is. -/
def link_resolved_path (base : RPath) (s : String) : RPath :=
  if (parsePath s).absolute = false then join_and_canonicalize s base else parsePath s

/-- The destination rewrite for an inline image start (src/render.rs
lines 62-79): a destination that parses as a URL is kept; otherwise the
resolved path is read and embedded as a data URL, with the fallback
graphic on a failed read; the final branch is the dead arm for an
unparseable path. -/
def image_dest (c : Ctx) (base : RPath) (dest : String) : String :=
  if c.urlOk dest = true then dest
  else
    match parsePathBuf dest with
    | Except.ok s =>
        (path_to_data_url c (image_resolved_path c base s)).getD
          (generate_message_data_url c "Disk error." "red")
    | Except.error _ => generate_message_data_url c "Unable to parse image path." "red"

/-- The destination rewrite for an inline link start (src/render.rs lines
82-111): a destination that parses as a URL is untouched; otherwise it is
resolved against the base, relativized under the working directory when
possible, and wrapped in the internal navigation URL shape. -/
def link_dest (c : Ctx) (base : RPath) (dest : String) : String :=
  if c.urlOk dest = true then dest
  else
    match parsePathBuf dest with
    | Except.ok fp =>
        match pathBufToStr fp with
        | some s =>
            let file_path := link_resolved_path base s
            let file_path :=
              match get_relative_path_under_cwd c.cwd file_path with
              | some p => p
              | none => file_path
            "/?path=" ++ pathToString file_path
        | none => dest
    | Except.error _ => dest

/-- The per-event transform of `render_doc` (src/render.rs lines 60-112):
the destination of an inline image start and of an inline link start is
rewritten; every other event is untouched. -/
def transformEvent (c : Ctx) (base : RPath) : Event → Event
  | .start (.image .inline dest title id') =>
      .start (.image .inline (image_dest c base dest) title id')
  | .start (.link .inline dest title id') =>
      .start (.link .inline (link_dest c base dest) title id')
  | e => e

/-- The transform loop of `render_doc`: mutates each event in place, in
document order. -/
def transformEvents (c : Ctx) (base : RPath) : List Event → List Event
  | [] => []
  | e :: rest => transformEvent c base e :: transformEvents c base rest

/-- The external collaborators of `render_doc` itself: path
canonicalization and text read (both fallible), the markdown parser over
the full option set, the HTML serializer, and the askama page template
(title, body, websocket flag). -/
structure SysCtx where
  canonicalize : RPath → Option RPath
  readToString : RPath → Option String
  parse : String → List Event
  pushHtml : List Event → String
  pageRender : String → String → Bool → String

/-- The failure cases of `render_doc`. -/
inductive RenderError where
  | canonicalizeFailed
  | readFailed
deriving DecidableEq, Repr

/-- Models `render_doc` (src/render.rs lines 48-124): canonicalizes the
source path, reads the source text (each failure surfacing to the
caller), parses it, transforms the event stream, serializes it and
renders the page template with the canonical path string as title. -/
def render_doc (sys : SysCtx) (c : Ctx) (path : RPath) (use_websocket : Bool) :
    Except RenderError String :=
  match sys.canonicalize path with
  | none => Except.error RenderError.canonicalizeFailed
  | some cpath =>
      match sys.readToString cpath with
      | none => Except.error RenderError.readFailed
      | some file =>
          let events := transformEvents c cpath (sys.parse file)
          let body := sys.pushHtml events
          Except.ok (sys.pageRender (pathToString cpath) body use_websocket)

/-- The composite embed operation as invoked at src/render.rs lines
71-73: `path_to_data_url(..).unwrap_or(generate_message_data_url("Disk
error.", "red"))`. -/
def embedImage (c : Ctx) (p : RPath) : String :=
  (path_to_data_url c p).getD (generate_message_data_url c "Disk error." "red")

/-- States that every component of a list is a normal name. -/
def onlyNormal (cs : List PComp) : Prop :=
  ∀ c ∈ cs, ∃ s, c = PComp.normal s

/-- Tests whether a component is the current-directory or the
parent-directory token. -/
def isDotComp : PComp → Bool
  | .curDir => true
  | .parentDir => true
  | .normal _ => false

/-- Tests whether a path contains a current-directory or parent-directory
component. -/
def has_dot_components (p : RPath) : Bool :=
  p.comps.any isDotComp

/-- The claim's notion of component-wise descendant of the working
directory, transcribed from its own wording: strictly more components
than the working directory, and an exact ordered component match for the
shared prefix length. -/
def spec_descendant (cwd p : RPath) : Prop :=
  (rustComponents cwd).length < (rustComponents p).length ∧
  (rustComponents p).take (rustComponents cwd).length = rustComponents cwd

instance (cwd p : RPath) : Decidable (spec_descendant cwd p) := by
  unfold spec_descendant
  exact instDecidableAnd

/-- Tests whether an event is the start of an inline image. -/
def isInlineImageStart : Event → Bool
  | .start (.image .inline _ _ _) => true
  | _ => false

/-- Tests whether an event is the start of an inline link. -/
def isInlineLinkStart : Event → Bool
  | .start (.link .inline _ _ _) => true
  | _ => false

/-- A concrete collaborator context whose filesystem is empty and whose
URL oracle rejects everything, used to instantiate theorems at concrete
inputs. -/
def ctxNone : Ctx :=
  { urlOk := fun _ => false
    fs := fun _ => none
    mimeFirstRaw := fun _ => none
    svgRender := fun _ _ => ""
    home := parsePath "/home/u"
    cwd := parsePath "/cwd" }

/-- A concrete collaborator context whose filesystem answers every read
with the two bytes of "hi". -/
def ctxRead : Ctx :=
  { ctxNone with fs := fun _ => some [104, 105] }

/-- A concrete collaborator context whose URL oracle accepts exactly one
external URL. -/
def ctxUrl : Ctx :=
  { ctxNone with urlOk := fun s => decide (s = "https://example.com") }

/-- A concrete render collaborator context where canonicalization and
reading always succeed. -/
def sysOk : SysCtx :=
  { canonicalize := fun p => some p
    readToString := fun _ => some ""
    parse := fun _ => []
    pushHtml := fun _ => ""
    pageRender := fun _ _ _ => "page" }

/-- Mapping into Rust components and projecting back is the identity on
raw components. -/
theorem filterMap_pcompOfRComp_map (cs : List PComp) :
    (cs.map toRComp).filterMap pcompOfRComp = cs := by
  induction cs with
  | nil => rfl
  | cons c rest ih =>
      rw [List.map_cons, List.filterMap_cons]
      cases c <;> simp only [toRComp, pcompOfRComp] <;> rw [ih]

/-- No raw component maps to the root-directory component. -/
theorem toRComp_ne_rootDir (c : PComp) : toRComp c ≠ RComp.rootDir := by
  cases c <;> simp [toRComp]

/-- Rebuilding from mapped raw components yields the relative path with
those components. -/
theorem ofRComps_map (cs : List PComp) : ofRComps (cs.map toRComp) = ⟨false, cs⟩ := by
  cases cs with
  | nil => rfl
  | cons c rest =>
      cases c <;>
        · show RPath.mk false _ = _
          rw [List.filterMap_cons]
          simp only [toRComp, pcompOfRComp]
          rw [filterMap_pcompOfRComp_map]

/-- Rebuilding from a root component followed by mapped raw components
yields the absolute path with those components. -/
theorem ofRComps_rootDir_map (cs : List PComp) :
    ofRComps (RComp.rootDir :: cs.map toRComp) = ⟨true, cs⟩ := by
  show RPath.mk true _ = _
  rw [filterMap_pcompOfRComp_map]

/-- A list of normal components is untouched by the current-directory
filter. -/
theorem filter_curDir_of_onlyNormal {cs : List PComp} (h : onlyNormal cs) :
    cs.filter (· != PComp.curDir) = cs := by
  rw [List.filter_eq_self]
  intro a ha
  obtain ⟨s, rfl⟩ := h a ha
  simp

/-- The Rust component list of a path made of normal components: the
optional root followed by the components themselves. -/
theorem rustComponents_of_onlyNormal {p : RPath} (h : onlyNormal p.comps) :
    rustComponents p = (if p.absolute then [RComp.rootDir] else []) ++ p.comps.map toRComp := by
  rcases p with ⟨abs, cs⟩
  cases abs
  · cases cs with
    | nil => rfl
    | cons c rest =>
        obtain ⟨s, rfl⟩ := h c (by simp)
        simpa [rustComponents] using congrArg (List.map toRComp)
          (filter_curDir_of_onlyNormal h)
  · simpa [rustComponents] using congrArg (List.map toRComp)
      (filter_curDir_of_onlyNormal h)

/-- Popping a path of normal components drops its last component. -/
theorem popPath_of_onlyNormal {p : RPath} (h : onlyNormal p.comps) :
    popPath p = ⟨p.absolute, p.comps.dropLast⟩ := by
  rcases p with ⟨abs, cs⟩
  unfold popPath parentPath
  rw [rustComponents_of_onlyNormal h]
  cases abs
  · cases cs with
    | nil => simp
    | cons c rest =>
        rw [if_neg]
        · show ofRComps (List.map toRComp (c :: rest)).dropLast
            = RPath.mk false (c :: rest).dropLast
          rw [← List.map_dropLast, ofRComps_map]
        · show ¬(List.map toRComp (c :: rest) = [] ∨
            List.map toRComp (c :: rest) = [RComp.rootDir])
          push_neg
          refine ⟨by simp, ?_⟩
          intro hcontra
          rw [List.map_cons] at hcontra
          exact toRComp_ne_rootDir c (by injection hcontra)
  · cases cs with
    | nil => simp
    | cons c rest =>
        rw [if_neg]
        · show ofRComps (RComp.rootDir :: List.map toRComp (c :: rest)).dropLast
            = RPath.mk true (c :: rest).dropLast
          rw [List.map_cons, List.dropLast_cons₂, ← List.map_cons toRComp,
            ← List.map_dropLast, ofRComps_rootDir_map]
        · show ¬(RComp.rootDir :: List.map toRComp (c :: rest) = [] ∨
            RComp.rootDir :: List.map toRComp (c :: rest) = [RComp.rootDir])
          push_neg
          exact ⟨by simp, by simp⟩

/-- Folding the cleanup step over mapped normal components appends them
to the accumulator. -/
theorem foldl_cleanStep_map_normals {cs : List PComp} (h : onlyNormal cs) :
    ∀ acc : RPath, (cs.map toRComp).foldl cleanStep acc = ⟨acc.absolute, acc.comps ++ cs⟩ := by
  induction cs with
  | nil => intro acc; simp
  | cons c rest ih =>
      intro acc
      obtain ⟨s, rfl⟩ := h c (by simp)
      have hrest : onlyNormal rest := fun d hd => h d (by simp [hd])
      simp only [List.map_cons, List.foldl_cons, toRComp, cleanStep]
      rw [ih hrest]
      simp

/-- The cleanup accumulator keeps only normal components at every step. -/
theorem onlyNormal_foldl_cleanStep (l : List RComp) :
    ∀ acc : RPath, onlyNormal acc.comps → onlyNormal ((l.foldl cleanStep acc).comps) := by
  induction l with
  | nil => intro acc h; exact h
  | cons c rest ih =>
      intro acc h
      cases c with
      | rootDir => exact ih _ (by intro d hd; simp [cleanStep] at hd)
      | curDir => exact ih _ h
      | parentDir =>
          refine ih _ ?_
          simp only [cleanStep]
          rw [popPath_of_onlyNormal h]
          intro d hd
          exact h d (List.dropLast_subset _ hd)
      | normal s =>
          refine ih _ ?_
          intro d hd
          simp only [cleanStep] at hd
          rcases List.mem_append.mp hd with hmem | hmem
          · exact h d hmem
          · exact ⟨s, by simpa using hmem⟩

/-- The cleanup pass keeps only normal components. -/
theorem cleanPath_onlyNormal (p : RPath) : onlyNormal (cleanPath p).comps :=
  onlyNormal_foldl_cleanStep _ _ (by intro d hd; simp at hd)

/-- The cleanup pass leaves a path of normal components unchanged. -/
theorem cleanPath_of_onlyNormal {p : RPath} (h : onlyNormal p.comps) :
    cleanPath p = p := by
  rcases p with ⟨abs, cs⟩
  unfold cleanPath
  rw [rustComponents_of_onlyNormal h]
  cases abs
  · simpa using foldl_cleanStep_map_normals h ⟨false, []⟩
  · rw [List.foldl_append]
    simpa using foldl_cleanStep_map_normals h ⟨true, []⟩

/-- The root-directory component is never the image of a raw component. -/
theorem rootDir_not_mem_map (l : List PComp) : RComp.rootDir ∉ l.map toRComp := by
  intro hmem
  rw [List.mem_map] at hmem
  obtain ⟨a, -, ha⟩ := hmem
  exact toRComp_ne_rootDir a ha

/-- The component list of a relative path never contains the
root-directory component. -/
theorem rootDir_not_mem_rustComponents_of_relative {p : RPath} (h : p.absolute = false) :
    RComp.rootDir ∉ rustComponents p := by
  rcases p with ⟨abs, cs⟩
  rcases h
  intro hmem
  cases cs with
  | nil => simp [rustComponents] at hmem
  | cons c0 rest =>
      cases c0 with
      | curDir =>
          simp only [rustComponents] at hmem
          rcases List.mem_cons.mp hmem with hbad | hbad
          · cases hbad
          · exact rootDir_not_mem_map _ hbad
      | parentDir => exact rootDir_not_mem_map _ hmem
      | normal s => exact rootDir_not_mem_map _ hmem

/-- The component list of an absolute path starts with the root-directory
component and contains no further root-directory components. -/
theorem rustComponents_cons_of_absolute {p : RPath} (h : p.absolute = true) :
    ∃ tl, rustComponents p = RComp.rootDir :: tl ∧ RComp.rootDir ∉ tl := by
  refine ⟨(p.comps.filter (· != PComp.curDir)).map toRComp, ?_, rootDir_not_mem_map _⟩
  unfold rustComponents
  rw [if_pos h]

/-- The rebuilt path's components are the projectable components of the
input list. -/
theorem ofRComps_comps (cs : List RComp) :
    (ofRComps cs).comps = cs.filterMap pcompOfRComp := by
  cases cs with
  | nil => rfl
  | cons c0 rest => cases c0 <;> simp [ofRComps, pcompOfRComp, List.filterMap_cons]

/-- A component list without the root-directory component rebuilds to a
relative path. -/
theorem ofRComps_absolute_of_no_root {cs : List RComp} (h : RComp.rootDir ∉ cs) :
    (ofRComps cs).absolute = false := by
  cases cs with
  | nil => rfl
  | cons c0 rest =>
      cases c0 with
      | rootDir => exact absurd (List.mem_cons_self _ _) h
      | curDir => rfl
      | parentDir => rfl
      | normal s => rfl

/-- A relative path has at most as many Rust components as raw
components. -/
theorem rustComponents_length_le_of_relative {p : RPath} (h : p.absolute = false) :
    (rustComponents p).length ≤ p.comps.length := by
  rcases p with ⟨abs, cs⟩
  rcases h
  cases cs with
  | nil => simp [rustComponents]
  | cons c0 rest =>
      cases c0 with
      | curDir =>
          simp only [rustComponents, List.length_cons, List.length_map]
          have := List.length_filter_le (· != PComp.curDir) rest
          simpa using this
      | parentDir =>
          show (List.map toRComp ((PComp.parentDir :: rest).filter (· != PComp.curDir))).length
            ≤ (PComp.parentDir :: rest).length
          rw [List.length_map]
          exact List.length_filter_le _ _
      | normal s =>
          show (List.map toRComp ((PComp.normal s :: rest).filter (· != PComp.curDir))).length
            ≤ (PComp.normal s :: rest).length
          rw [List.length_map]
          exact List.length_filter_le _ _

/-- Every Rust component of a path of normal components is the root or a
normal component. -/
theorem mem_rustComponents_of_onlyNormal {p : RPath} (h : onlyNormal p.comps) :
    ∀ c ∈ rustComponents p, c = RComp.rootDir ∨ ∃ s, c = RComp.normal s := by
  intro c hc
  rw [rustComponents_of_onlyNormal h] at hc
  rcases List.mem_append.mp hc with hmem | hmem
  · left
    cases habs : p.absolute
    · rw [habs] at hmem
      simp at hmem
    · rw [habs] at hmem
      simpa using hmem
  · right
    rw [List.mem_map] at hmem
    obtain ⟨a, ha, rfl⟩ := hmem
    obtain ⟨s, rfl⟩ := h a ha
    exact ⟨s, rfl⟩

/-- Rebuilding a list of root-or-normal components yields a path of
normal components. -/
theorem onlyNormal_ofRComps {cs : List RComp}
    (h : ∀ c ∈ cs, c = RComp.rootDir ∨ ∃ s, c = RComp.normal s) :
    onlyNormal (ofRComps cs).comps := by
  intro c hc
  rw [ofRComps_comps, List.mem_filterMap] at hc
  obtain ⟨a, ha, hpa⟩ := hc
  rcases h a ha with rfl | ⟨s, rfl⟩
  · cases hpa
  · refine ⟨s, ?_⟩
    simp only [pcompOfRComp] at hpa
    exact (Option.some_injective _ hpa).symm

/-- A path of normal components has no dot components. -/
theorem has_dot_eq_false_of_onlyNormal {p : RPath} (h : onlyNormal p.comps) :
    has_dot_components p = false := by
  rw [has_dot_components, List.any_eq_false]
  intro c hc
  obtain ⟨s, rfl⟩ := h c hc
  simp [isDotComp]

/-- With an absolute working directory, a descendant of it in the
claim's sense is itself absolute. -/
theorem absolute_of_spec_descendant {cwd p : RPath} (hcwd : cwd.absolute = true)
    (hd : spec_descendant cwd p) : p.absolute = true := by
  by_contra hcon
  have habs' : p.absolute = false := by
    revert hcon
    cases p.absolute <;> simp
  have h1 : RComp.rootDir ∈ rustComponents cwd := by
    obtain ⟨tl, htl, -⟩ := rustComponents_cons_of_absolute hcwd
    rw [htl]
    exact List.mem_cons_self _ _
  have h2 : RComp.rootDir ∈ (rustComponents p).take (rustComponents cwd).length := by
    rw [hd.2]
    exact h1
  exact rootDir_not_mem_rustComponents_of_relative habs' (List.mem_of_mem_take h2)

/-- With an absolute working directory, the source's child test decides
exactly the claim's descendant relation. -/
theorem is_child_path_iff_spec_descendant {cwd p : RPath} (hcwd : cwd.absolute = true) :
    is_child_path cwd p = true ↔ spec_descendant cwd p := by
  constructor
  · intro h
    unfold is_child_path at h
    by_cases habs : p.absolute = false
    · rw [if_pos habs] at h
      cases h
    · rw [if_neg habs] at h
      by_cases hlen : (rustComponents p).length ≤ (rustComponents cwd).length
      · rw [if_pos hlen] at h
        cases h
      · rw [if_neg hlen] at h
        exact ⟨by omega, of_decide_eq_true h⟩
  · intro hd
    have habs : p.absolute = true := absolute_of_spec_descendant hcwd hd
    obtain ⟨hlen, htake⟩ := hd
    unfold is_child_path
    rw [if_neg (by simp [habs]), if_neg (by omega)]
    exact decide_eq_true htake

/-- Claim C8: the lexical cleaning pass is idempotent: applying the cleaning
pass to an already-cleaned path leaves it unchanged, i.e. for every path
p, clean(clean(p)) = clean(p). -/
theorem cleanPath_idempotent (p : RPath) : cleanPath (cleanPath p) = cleanPath p :=
  cleanPath_of_onlyNormal (cleanPath_onlyNormal p)

/-- Claim C6: during lexical cleaning, a parent-directory component met on an
empty accumulator is discarded as a no-op rather than an error or
underflow, and resolving "../x" against the root-level base "doc.md"
yields exactly "x". -/
theorem parentDir_on_empty_accumulator_noop :
    (∀ abs : Bool, cleanStep ⟨abs, []⟩ RComp.parentDir = ⟨abs, []⟩) ∧
    join_and_canonicalize "../x" (parsePath "doc.md") = parsePath "x" ∧
    join_and_canonicalize "../x" (parsePath "/doc.md") = parsePath "/x" := by
  decide

/-- Claim C3 counterexample: the Resource Embedder and the Link Rewriter do not
apply the same base-resolution policy: for the relative reference
"../img/pic.png" against the base document "/notes/a/doc.md", the path
used to read the image differs from the local path produced for a link. -/
theorem embed_link_resolution_differ_cex :
    image_resolved_path ctxNone (parsePath "/notes/a/doc.md") "../img/pic.png"
      ≠ link_resolved_path (parsePath "/notes/a/doc.md") "../img/pic.png" := by
  decide

/-- Claim C4 counterexample: the path passed to the Resource Embedder for the
relative image reference "../pic.png" against the base "/notes/a/doc.md"
does contain a parent-directory component. -/
theorem resolved_path_dot_components_cex :
    has_dot_components
      (image_resolved_path ctxNone (parsePath "/notes/a/doc.md") "../pic.png") = true := by
  decide

/-- Claim C10: parsing an image destination as a path is infallible (the error
type of the conversion is empty), so the "Unable to parse image path."
fallback branch is unreachable: the image destination rewrite always
yields either the untouched URL, the embedded data URL, or the
"Disk error." fallback graphic. -/
theorem image_parse_branch_unreachable (c : Ctx) (base : RPath) (dest : String) :
    parsePathBuf dest = Except.ok dest ∧
    image_dest c base dest =
      (if c.urlOk dest = true then dest
       else (path_to_data_url c (image_resolved_path c base dest)).getD
         (generate_message_data_url c "Disk error." "red")) := by
  refine ⟨rfl, ?_⟩
  cases h : c.urlOk dest <;> simp [image_dest, parsePathBuf, h]

/-- Claim C1: embedding is total from the caller's perspective: for every path
the result has the valid data-URL shape and no error is signalled; on a
successful read the MIME type is the guess for the path defaulting to
text/plain, and on any read failure the result is the fallback SVG
graphic (MIME type image/svg+xml) carrying the "Disk error." message and
the warning color red. -/
theorem embedImage_total_data_url_shape (c : Ctx) (p : RPath) :
    (∃ mime payload, embedImage c p = "data:" ++ mime ++ ";base64," ++ payload) ∧
    (∀ b, c.fs p = some b →
      embedImage c p = data_url b ((c.mimeFirstRaw p).getD "text/plain")) ∧
    (c.fs p = none →
      embedImage c p = generate_message_data_url c "Disk error." "red" ∧
      generate_message_data_url c "Disk error." "red"
        = data_url (strBytes (c.svgRender "red" "Disk error.")) "image/svg+xml") := by
  refine ⟨?_, ?_, ?_⟩
  · cases hfs : c.fs p with
    | none =>
        exact ⟨"image/svg+xml", base64Encode (strBytes (c.svgRender "red" "Disk error.")),
          by simp [embedImage, path_to_data_url, hfs, generate_message_data_url, data_url]⟩
    | some b =>
        exact ⟨(c.mimeFirstRaw p).getD "text/plain", base64Encode b,
          by simp [embedImage, path_to_data_url, hfs, data_url]⟩
  · intro b hb
    simp [embedImage, path_to_data_url, hb]
  · intro hn
    exact ⟨by simp [embedImage, path_to_data_url, hn], rfl⟩

/-- Witness for C1: on the empty filesystem the embed of a missing path
is the fallback graphic, and on a filesystem holding the bytes of "hi"
the embed is a data URL with the default MIME type. -/
theorem embedImage_total_data_url_shape_witness :
    embedImage ctxNone (parsePath "/missing.png")
      = generate_message_data_url ctxNone "Disk error." "red" ∧
    embedImage ctxRead (parsePath "/hi.txt") = data_url [104, 105] "text/plain" := by
  constructor
  · exact ((embedImage_total_data_url_shape ctxNone (parsePath "/missing.png")).2.2 rfl).1
  · exact (embedImage_total_data_url_shape ctxRead (parsePath "/hi.txt")).2.1 [104, 105] rfl

/-- Claim C2: the link rewrite returns its input unchanged whenever the
destination parses as a valid URL; otherwise the rewritten destination
has the shape "/?path=" followed by the plain string form of the
resolved and, when possible, cwd-relativized local path. -/
theorem link_dest_passthrough_or_navigation_shape (c : Ctx) (base : RPath) (dest : String) :
    (c.urlOk dest = true → link_dest c base dest = dest) ∧
    (c.urlOk dest = false →
      link_dest c base dest =
        "/?path=" ++ pathToString
          ((get_relative_path_under_cwd c.cwd (link_resolved_path base dest)).getD
            (link_resolved_path base dest))) := by
  constructor
  · intro h
    simp [link_dest, h]
  · intro h
    cases hgr : get_relative_path_under_cwd c.cwd (link_resolved_path base dest) with
    | some q => simp [link_dest, parsePathBuf, pathBufToStr, h, hgr]
    | none => simp [link_dest, parsePathBuf, pathBufToStr, h, hgr]

/-- Witness for C2: the external URL "https://example.com" is passed
through unchanged, and the relative link "../other.md" in the document
"/notes/a/doc.md" is rewritten to "/?path=/notes/other.md". -/
theorem link_dest_passthrough_or_navigation_shape_witness :
    link_dest ctxUrl (parsePath "/notes/a/doc.md") "https://example.com"
      = "https://example.com" ∧
    link_dest ctxUrl (parsePath "/notes/a/doc.md") "../other.md"
      = "/?path=/notes/other.md" := by
  constructor
  · exact (link_dest_passthrough_or_navigation_shape ctxUrl
      (parsePath "/notes/a/doc.md") "https://example.com").1 (by decide)
  · refine ((link_dest_passthrough_or_navigation_shape ctxUrl
      (parsePath "/notes/a/doc.md") "../other.md").2 (by decide)).trans ?_
    decide

/-- Claim C3 corrected: the Resource Embedder and the Link Rewriter agree only
on absolute references; on a relative non-tilde reference the embedder
joins the reference onto the base document path itself with no lexical
cleaning, while the link rewriter joins it onto the parent directory of
the base and cleans the result, so the two base-resolution policies
differ. -/
theorem embed_link_resolution_policies (c : Ctx) (base : RPath) (dest : String) :
    ((parsePath dest).absolute = true →
      image_resolved_path c base dest = link_resolved_path base dest) ∧
    ((parsePath dest).absolute = false → tildeFirst (parsePath dest) = false →
      image_resolved_path c base dest = joinPath base (parsePath dest) ∧
      link_resolved_path base dest =
        cleanPath (joinPath ((parentPath base).getD base) (parsePath dest))) := by
  constructor
  · intro h
    simp [image_resolved_path, resolve_in, link_resolved_path, h]
  · intro h ht
    exact ⟨by simp [image_resolved_path, resolve_in, h, ht],
      by simp [link_resolved_path, h, join_and_canonicalize]⟩

/-- Witness for C3: both policies return the absolute reference
"/abs.md" unchanged, and on the relative reference "../img/pic.png" the
embedder path is the uncleaned join onto the base document itself. -/
theorem embed_link_resolution_policies_witness :
    image_resolved_path ctxNone (parsePath "/notes/a/doc.md") "/abs.md"
      = link_resolved_path (parsePath "/notes/a/doc.md") "/abs.md" ∧
    image_resolved_path ctxNone (parsePath "/notes/a/doc.md") "../img/pic.png"
      = joinPath (parsePath "/notes/a/doc.md") (parsePath "../img/pic.png") := by
  constructor
  · exact (embed_link_resolution_policies ctxNone
      (parsePath "/notes/a/doc.md") "/abs.md").1 (by decide)
  · exact ((embed_link_resolution_policies ctxNone
      (parsePath "/notes/a/doc.md") "../img/pic.png").2 (by decide) (by decide)).1

/-- Claim C5: the render call succeeds exactly when the source path
canonicalizes and the canonical file reads successfully; after parsing
has begun nothing else can fail, so every malformed or unreachable
reference is handled locally and a page is still returned. -/
theorem render_doc_ok_iff_canonicalize_and_read (sys : SysCtx) (c : Ctx) (p : RPath)
    (w : Bool) :
    (∃ page, render_doc sys c p w = Except.ok page) ↔
    (∃ cp, sys.canonicalize p = some cp ∧ ∃ text, sys.readToString cp = some text) := by
  constructor
  · rintro ⟨page, hpage⟩
    cases hc : sys.canonicalize p with
    | none => simp [render_doc, hc] at hpage
    | some cp =>
        cases hr : sys.readToString cp with
        | none => simp [render_doc, hc, hr] at hpage
        | some t => exact ⟨cp, rfl, t, hr⟩
  · rintro ⟨cp, hc, t, hr⟩
    refine ⟨sys.pageRender (pathToString cp)
      (sys.pushHtml (transformEvents c cp (sys.parse t))) w, ?_⟩
    simp [render_doc, hc, hr]

/-- Witness for C5: with collaborators whose canonicalization and read
both succeed, the render call returns a page. -/
theorem render_doc_ok_iff_canonicalize_and_read_witness :
    ∃ page, render_doc sysOk ctxNone (parsePath "/doc.md") true = Except.ok page :=
  (render_doc_ok_iff_canonicalize_and_read sysOk ctxNone (parsePath "/doc.md") true).mpr
    ⟨parsePath "/doc.md", rfl, "", rfl⟩

/-- Claim C4 corrected: the resolved path embedded in a rewritten link for a
relative link reference contains no current-directory and no
parent-directory components, both before and after cwd-relativization;
the path handed to the Resource Embedder (and an already-absolute link
reference) can retain such components, as the counterexample shows. -/
theorem link_resolved_path_no_dot_components (c : Ctx) (base : RPath) (dest : String)
    (hrel : (parsePath dest).absolute = false) :
    has_dot_components (link_resolved_path base dest) = false ∧
    has_dot_components
      ((get_relative_path_under_cwd c.cwd (link_resolved_path base dest)).getD
        (link_resolved_path base dest)) = false := by
  have heq : link_resolved_path base dest = join_and_canonicalize dest base := by
    unfold link_resolved_path
    rw [if_pos hrel]
  have hnorm : onlyNormal (link_resolved_path base dest).comps := by
    rw [heq]
    unfold join_and_canonicalize
    exact cleanPath_onlyNormal _
  refine ⟨has_dot_eq_false_of_onlyNormal hnorm, ?_⟩
  unfold get_relative_path_under_cwd
  by_cases hchild : is_child_path c.cwd (link_resolved_path base dest) = true
  · rw [if_pos hchild]
    unfold truncate_cwd
    by_cases htake : (rustComponents (link_resolved_path base dest)).take
        (rustComponents c.cwd).length = rustComponents c.cwd
    · rw [if_pos htake]
      simp only [Option.getD_some]
      apply has_dot_eq_false_of_onlyNormal
      apply onlyNormal_ofRComps
      intro x hx
      exact mem_rustComponents_of_onlyNormal hnorm x (List.mem_of_mem_drop hx)
    · rw [if_neg htake]
      simp only [Option.getD_none]
      exact has_dot_eq_false_of_onlyNormal hnorm
  · rw [if_neg hchild]
    simp only [Option.getD_some]
    exact has_dot_eq_false_of_onlyNormal hnorm

/-- Witness for C4: the rewritten-link path for the relative reference
"../other.md" against the base "/notes/a/doc.md" has no dot
components. -/
theorem link_resolved_path_no_dot_components_witness :
    has_dot_components (link_resolved_path (parsePath "/notes/a/doc.md") "../other.md")
      = false :=
  (link_resolved_path_no_dot_components ctxNone (parsePath "/notes/a/doc.md") "../other.md"
    (by decide)).1

/-- Claim C7: with an absolute working directory, the relativization returns
its input unchanged exactly when the input is not a component-wise
descendant of the working directory (strictly more components and an
exact ordered prefix match), and returns a path strictly fewer
components long exactly when it is such a descendant. -/
theorem relativize_under_cwd_descendant (cwd p : RPath) (hcwd : cwd.absolute = true) :
    (¬ spec_descendant cwd p → get_relative_path_under_cwd cwd p = some p) ∧
    (spec_descendant cwd p →
      ∃ q, get_relative_path_under_cwd cwd p = some q ∧
        (rustComponents q).length < (rustComponents p).length) := by
  constructor
  · intro hnd
    unfold get_relative_path_under_cwd
    rw [if_neg]
    intro hc
    exact hnd ((is_child_path_iff_spec_descendant hcwd).mp hc)
  · intro hd
    have hchild : is_child_path cwd p = true :=
      (is_child_path_iff_spec_descendant hcwd).mpr hd
    have habs : p.absolute = true := absolute_of_spec_descendant hcwd hd
    obtain ⟨hlen, htake⟩ := hd
    obtain ⟨tl, htl, htlnr⟩ := rustComponents_cons_of_absolute habs
    unfold get_relative_path_under_cwd truncate_cwd
    rw [if_pos hchild, if_pos htake]
    refine ⟨ofRComps ((rustComponents p).drop (rustComponents cwd).length), rfl, ?_⟩
    have hk1 : 1 ≤ (rustComponents cwd).length := by
      obtain ⟨tl2, htl2, -⟩ := rustComponents_cons_of_absolute hcwd
      rw [htl2]
      simp
    have hnr : RComp.rootDir ∉ (rustComponents p).drop (rustComponents cwd).length := by
      obtain ⟨k', hk'⟩ : ∃ k', (rustComponents cwd).length = k' + 1 :=
        ⟨(rustComponents cwd).length - 1, by omega⟩
      rw [hk', htl, List.drop_succ_cons]
      intro hmem
      exact htlnr (List.mem_of_mem_drop hmem)
    have h1 := rustComponents_length_le_of_relative (ofRComps_absolute_of_no_root hnr)
    have h2 : (ofRComps ((rustComponents p).drop (rustComponents cwd).length)).comps.length
        ≤ ((rustComponents p).drop (rustComponents cwd).length).length := by
      rw [ofRComps_comps]
      exact List.length_filterMap_le _ _
    have h3 := List.length_drop (rustComponents cwd).length (rustComponents p)
    omega

/-- Witness for C7: with the working directory "/home/user", the path
"/etc/x.md" is returned unchanged and the descendant
"/home/user/file.md" is shortened. -/
theorem relativize_under_cwd_descendant_witness :
    get_relative_path_under_cwd (parsePath "/home/user") (parsePath "/etc/x.md")
      = some (parsePath "/etc/x.md") ∧
    ∃ q, get_relative_path_under_cwd (parsePath "/home/user") (parsePath "/home/user/file.md")
        = some q ∧
      (rustComponents q).length < (rustComponents (parsePath "/home/user/file.md")).length := by
  constructor
  · exact (relativize_under_cwd_descendant (parsePath "/home/user") (parsePath "/etc/x.md")
      (by decide)).1 (by decide)
  · exact (relativize_under_cwd_descendant (parsePath "/home/user")
      (parsePath "/home/user/file.md") (by decide)).2 (by decide)

/-- Claim C9: the transform step preserves the length and order of the event
stream exactly (the i-th output event is the transform of the i-th input
event), and every event that is not an inline image start and not an
inline link start is passed through unchanged. -/
theorem transformEvents_frame (c : Ctx) (base : RPath) (events : List Event) :
    (transformEvents c base events).length = events.length ∧
    (∀ i : Nat,
      (transformEvents c base events)[i]? = (events[i]?).map (transformEvent c base)) ∧
    (∀ e, isInlineImageStart e = false → isInlineLinkStart e = false →
      transformEvent c base e = e) := by
  refine ⟨?_, ?_, ?_⟩
  · induction events with
    | nil => rfl
    | cons e rest ih => simp [transformEvents, ih]
  · intro i
    induction events generalizing i with
    | nil => simp [transformEvents]
    | cons e rest ih =>
        cases i with
        | zero => simp [transformEvents]
        | succ n => simp [transformEvents, ih]
  · intro e h1 h2
    cases e <;> try rfl
    case start t =>
      cases t <;> try rfl
      case image lt d ti i =>
        cases lt <;> try rfl
        case inline => simp [isInlineImageStart] at h1
      case link lt d ti i =>
        cases lt <;> try rfl
        case inline => simp [isInlineLinkStart] at h2

/-- Witness for C9: on a concrete two-event stream the transform keeps
the length, keeps the first event in place, and leaves a thematic break
unchanged. -/
theorem transformEvents_frame_witness :
    (transformEvents ctxNone (parsePath "/d.md") [Event.text "hi", Event.rule]).length = 2 ∧
    (transformEvents ctxNone (parsePath "/d.md") [Event.text "hi", Event.rule])[0]?
      = some (Event.text "hi") ∧
    transformEvent ctxNone (parsePath "/d.md") Event.rule = Event.rule := by
  refine ⟨?_, ?_, ?_⟩
  · exact (transformEvents_frame ctxNone (parsePath "/d.md")
      [Event.text "hi", Event.rule]).1.trans (by decide)
  · exact ((transformEvents_frame ctxNone (parsePath "/d.md")
      [Event.text "hi", Event.rule]).2.1 0).trans (by decide)
  · exact (transformEvents_frame ctxNone (parsePath "/d.md")
      [Event.text "hi", Event.rule]).2.2 Event.rule rfl rfl

end Tatum
